import Mathlib

/-!
# Verification of the WebRTC signalling server (`src/server.js`)

Shallow embedding of the socket.io signalling server. The server keeps no
state of its own: all room state lives in the socket.io adapter
(`io.sockets.adapter.rooms`), a map from room name to the set of socket ids
currently joined to that room. We embed that map as an association list
`RoomTable` and the adapter operations with their documented socket.io
semantics:

* `socket.join(roomId)` adds the socket's id to the room's set (creating the
  room if absent); it is idempotent and does **not** remove the socket from
  any other room.
* `socket.to(roomId).emit(ev, payload)` emits to every socket in the room
  except the sender, whether or not the sender itself is in the room.
* on disconnect the socket leaves every room it is in, and the adapter
  deletes every room whose set becomes empty.

(The adapter also holds one singleton room per socket, named by the random
socket id; those personal rooms are disjoint from the caller-supplied
application rooms and are omitted.)

The event handlers of `server.js` are then transcribed line by line
(`joinHandler`, the four relay cases of `step`, `disconnectHandler`), and an
`Emission` records each `emit` call: destination socket, event name, payload.
-/

/-- A socket id (socket.io connection identifier). -/
abbrev SocketId := String

/-- A caller-supplied room identifier. -/
abbrev RoomId := String

/-- The adapter's room map: room name to the list of socket ids in the room
(socket.io keeps a `Set`; we keep an insertion-ordered duplicate-free list). -/
abbrev RoomTable := List (RoomId × List SocketId)

/-- `io.sockets.adapter.rooms.get(roomId)`: the occupant set of a room, or
`none` when the room is absent from the map. -/
def roomsGet : RoomTable → RoomId → Option (List SocketId)
  | [], _ => none
  | (r', occ) :: t, r => if r' = r then some occ else roomsGet t r

/-- Update the room's entry in the map (first occurrence), or append a fresh
entry when the room is absent. -/
def roomsSet : RoomTable → RoomId → List SocketId → RoomTable
  | [], r, occ => [(r, occ)]
  | (r', occ') :: t, r, occ =>
    if r' = r then (r, occ) :: t else (r', occ') :: roomsSet t r occ

/-- `socket.join(roomId)`: add the socket to the room's set. Adding an id
already present is a no-op (socket.io rooms are sets); no other membership
changes. -/
def socketJoin (t : RoomTable) (s : SocketId) (r : RoomId) : RoomTable :=
  let occ := (roomsGet t r).getD []
  if s ∈ occ then t else roomsSet t r (occ ++ [s])

/-- `selectedRoom ? selectedRoom.size : 0` in the join handler. -/
def occupancy (t : RoomTable) (r : RoomId) : Nat :=
  match roomsGet t r with
  | some occ => occ.length
  | none => 0

/-- The socket is currently in the room. -/
def memberOf (t : RoomTable) (s : SocketId) (r : RoomId) : Prop :=
  s ∈ (roomsGet t r).getD []

instance (t : RoomTable) (s : SocketId) (r : RoomId) :
    Decidable (memberOf t s r) := by
  unfold memberOf; infer_instance

/-- The payload of an outbound `emit`: nothing (`start_call`), a string (a
room id or an `sdp` session description), or a whole
`webrtc_ice_candidate` event object. -/
inductive Payload where
  | nothing
  | str (s : String)
  | ice (roomId : RoomId) (label : String) (candidate : String)
  deriving DecidableEq, Repr

/-- One `emit` call: destination socket, event name, payload. -/
structure Emission where
  dest : SocketId
  event : String
  payload : Payload
  deriving DecidableEq, Repr

/-- The inbound `{ roomId, sdp, type }` object of `webrtc_offer` /
`webrtc_answer`. -/
structure OfferEvent where
  roomId : RoomId
  sdp : String
  type : String
  deriving DecidableEq, Repr

/-- The inbound `{ roomId, label, candidate }` object of
`webrtc_ice_candidate`. -/
structure IceEvent where
  roomId : RoomId
  label : String
  candidate : String
  deriving DecidableEq, Repr

/-- The `socket.on('join', ...)` handler of `server.js`:
inspect `numberOfClients` and branch on 0 / 1 / otherwise. -/
def joinHandler (t : RoomTable) (sock : SocketId) (roomId : RoomId) :
    RoomTable × List Emission :=
  let numberOfClients := occupancy t roomId
  if numberOfClients = 0 then
    (socketJoin t sock roomId, [⟨sock, "room_created", Payload.str roomId⟩])
  else if numberOfClients = 1 then
    (socketJoin t sock roomId, [⟨sock, "room_joined", Payload.str roomId⟩])
  else
    (t, [⟨sock, "full_room", Payload.str roomId⟩])

/-- The recipients of `socket.to(roomId)`: every socket in the room except
the sender (socket.io excludes only the sender; it does not require the
sender to be in the room). -/
def toRecipients (t : RoomTable) (sender : SocketId) (r : RoomId) :
    List SocketId :=
  ((roomsGet t r).getD []).filter (fun d => d ≠ sender)

/-- `socket.to(roomId).emit(event, payload)`. -/
def socketTo (t : RoomTable) (sender : SocketId) (r : RoomId)
    (event : String) (p : Payload) : List Emission :=
  (toRecipients t sender r).map (fun d => ⟨d, event, p⟩)

/-- Remove one socket id from a room's occupant set. -/
def removeSock (occ : List SocketId) (s : SocketId) : List SocketId :=
  occ.filter (fun c => c ≠ s)

/-- Socket.io disconnect housekeeping: the socket leaves every room, and
rooms left with no occupant are deleted from the map. -/
def disconnectHandler (t : RoomTable) (s : SocketId) : RoomTable :=
  (t.map (fun p => (p.1, removeSock p.2 s))).filter (fun p => !p.2.isEmpty)

/-- An inbound event from one socket, as dispatched by
`io.on('connection', ...)`. -/
inductive InEvent where
  | join (roomId : RoomId)
  | startCall (roomId : RoomId)
  | offer (ev : OfferEvent)
  | answer (ev : OfferEvent)
  | iceCandidate (ev : IceEvent)
  | disconnect
  deriving DecidableEq, Repr

/-- One event-handler execution of `server.js`: the new adapter state and
the list of `emit` calls performed. -/
def step (t : RoomTable) (sock : SocketId) : InEvent → RoomTable × List Emission
  | .join r => joinHandler t sock r
  | .startCall r => (t, socketTo t sock r "start_call" Payload.nothing)
  | .offer ev => (t, socketTo t sock ev.roomId "webrtc_offer" (Payload.str ev.sdp))
  | .answer ev => (t, socketTo t sock ev.roomId "webrtc_answer" (Payload.str ev.sdp))
  | .iceCandidate ev =>
    (t, socketTo t sock ev.roomId "webrtc_ice_candidate"
      (Payload.ice ev.roomId ev.label ev.candidate))
  | .disconnect => (disconnectHandler t sock, [])

/-- The four relay events (`start_call`, `webrtc_offer`, `webrtc_answer`,
`webrtc_ice_candidate`). -/
def isRelay : InEvent → Bool
  | .startCall _ | .offer _ | .answer _ | .iceCandidate _ => true
  | .join _ | .disconnect => false

/-- The room a relay event addresses. -/
def relayRoom : InEvent → Option RoomId
  | .startCall r => some r
  | .offer ev => some ev.roomId
  | .answer ev => some ev.roomId
  | .iceCandidate ev => some ev.roomId
  | .join _ | .disconnect => none

/-- States of the adapter map reachable from the empty map by event-handler
executions. -/
inductive Reachable : RoomTable → Prop where
  | init : Reachable []
  | next (t : RoomTable) (s : SocketId) (e : InEvent) :
      Reachable t → Reachable (step t s e).1

/-- A sequence of `join` requests for one room, one per listed socket. -/
def runJoins : RoomTable → RoomId → List SocketId → RoomTable × List Emission
  | t, _, [] => (t, [])
  | t, r, s :: ss =>
    ((runJoins (joinHandler t s r).1 r ss).1,
      (joinHandler t s r).2 ++ (runJoins (joinHandler t s r).1 r ss).2)

/-- `process.env.PORT || 3000`: a JS string (the env value) or the number
3000. -/
inductive PortValue where
  | num (n : Nat)
  | str (s : String)
  deriving DecidableEq, Repr

/-- `const port = process.env.PORT || 3000`: an unset variable is
`undefined` (falsy) and an empty string is falsy, so both fall back to
3000; any other string is used as-is. -/
def portOf (envPORT : Option String) : PortValue :=
  match envPORT with
  | some s => if s = "" then PortValue.num 3000 else PortValue.str s
  | none => PortValue.num 3000

/-- The listening port as a function of the whole process environment:
`server.js` reads only the `PORT` variable. -/
def listenPort (env : String → Option String) : PortValue :=
  portOf (env "PORT")

/-! ## Basic lemmas about the adapter map -/

theorem roomsGet_roomsSet_self (t : RoomTable) (r : RoomId) (v : List SocketId) :
    roomsGet (roomsSet t r v) r = some v := by
  induction t with
  | nil => simp [roomsSet, roomsGet]
  | cons hd tl ih =>
    obtain ⟨r', occ'⟩ := hd
    by_cases h : r' = r
    · simp [roomsSet, roomsGet, h]
    · simp [roomsSet, roomsGet, h, ih]

theorem roomsGet_roomsSet_ne (t : RoomTable) {r r' : RoomId} (v : List SocketId)
    (h : r' ≠ r) : roomsGet (roomsSet t r v) r' = roomsGet t r' := by
  induction t with
  | nil => simp [roomsSet, roomsGet, Ne.symm h]
  | cons hd tl ih =>
    obtain ⟨r₀, occ₀⟩ := hd
    by_cases h₀ : r₀ = r
    · subst h₀
      simp [roomsSet, roomsGet, Ne.symm h]
    · simp [roomsSet, roomsGet, h₀, ih]

theorem mem_of_roomsGet {t : RoomTable} {r : RoomId} {occ : List SocketId}
    (h : roomsGet t r = some occ) : (r, occ) ∈ t := by
  induction t with
  | nil => simp [roomsGet] at h
  | cons hd tl ih =>
    obtain ⟨r', occ'⟩ := hd
    by_cases hr : r' = r
    · subst hr
      rw [roomsGet, if_pos rfl] at h
      cases h
      exact List.mem_cons_self _ _
    · rw [roomsGet, if_neg hr] at h
      exact List.mem_cons_of_mem _ (ih h)

theorem roomsGet_eq_none_iff {t : RoomTable} {r : RoomId} :
    roomsGet t r = none ↔ r ∉ t.map Prod.fst := by
  induction t with
  | nil => simp [roomsGet]
  | cons hd tl ih =>
    obtain ⟨r', occ'⟩ := hd
    by_cases hr : r' = r
    · subst hr
      simp [roomsGet]
    · rw [roomsGet, if_neg hr, ih]
      simp only [List.map_cons, List.mem_cons]
      constructor
      · intro h hh
        rcases hh with hh | hh
        · exact hr hh.symm
        · exact h hh
      · intro h hh
        exact h (Or.inr hh)

theorem keys_mem_of_roomsGet {t : RoomTable} {r : RoomId} {occ : List SocketId}
    (h : roomsGet t r = some occ) : r ∈ t.map Prod.fst := by
  have := mem_of_roomsGet h
  exact List.mem_map.mpr ⟨(r, occ), this, rfl⟩

theorem mem_roomsSet {p : RoomId × List SocketId} {t : RoomTable} {r : RoomId}
    {v : List SocketId} (h : p ∈ roomsSet t r v) : p ∈ t ∨ p = (r, v) := by
  induction t with
  | nil =>
    simp [roomsSet] at h
    exact Or.inr h
  | cons hd tl ih =>
    obtain ⟨r₀, occ₀⟩ := hd
    by_cases h₀ : r₀ = r
    · rw [roomsSet, if_pos h₀] at h
      rcases List.mem_cons.mp h with h | h
      · exact Or.inr h
      · exact Or.inl (List.mem_cons_of_mem _ h)
    · rw [roomsSet, if_neg h₀] at h
      rcases List.mem_cons.mp h with h | h
      · exact Or.inl (h ▸ List.mem_cons_self _ _)
      · rcases ih h with h | h
        · exact Or.inl (List.mem_cons_of_mem _ h)
        · exact Or.inr h

theorem keys_roomsSet (t : RoomTable) (r : RoomId) (v : List SocketId) :
    (roomsSet t r v).map Prod.fst =
      if r ∈ t.map Prod.fst then t.map Prod.fst
      else t.map Prod.fst ++ [r] := by
  induction t with
  | nil => simp [roomsSet]
  | cons hd tl ih =>
    obtain ⟨r₀, occ₀⟩ := hd
    by_cases h₀ : r₀ = r
    · subst h₀
      simp [roomsSet]
    · rw [roomsSet, if_neg h₀]
      simp only [List.map_cons, List.mem_cons]
      rw [ih]
      by_cases hr : r ∈ tl.map Prod.fst
      · rw [if_pos hr, if_pos (Or.inr hr)]
      · have hno : ¬(r = r₀ ∨ r ∈ tl.map Prod.fst) := by
          intro hh
          rcases hh with hh | hh
          · exact h₀ hh.symm
          · exact hr hh
        rw [if_neg hr, if_neg hno]
        simp

theorem occupancy_eq_getD_length (t : RoomTable) (r : RoomId) :
    occupancy t r = ((roomsGet t r).getD []).length := by
  cases h : roomsGet t r <;> simp [occupancy, h]

/-! ## Lemmas about `socketJoin` -/

theorem socketJoin_of_mem {t : RoomTable} {s : SocketId} {r : RoomId}
    (h : s ∈ (roomsGet t r).getD []) : socketJoin t s r = t := by
  simp [socketJoin, h]

theorem roomsGet_socketJoin_of_not_mem {t : RoomTable} {s : SocketId} {r : RoomId}
    (h : s ∉ (roomsGet t r).getD []) :
    roomsGet (socketJoin t s r) r = some ((roomsGet t r).getD [] ++ [s]) := by
  simp [socketJoin, h, roomsGet_roomsSet_self]

theorem socketJoin_of_not_mem {t : RoomTable} {s : SocketId} {r : RoomId}
    (h : s ∉ (roomsGet t r).getD []) :
    socketJoin t s r = roomsSet t r ((roomsGet t r).getD [] ++ [s]) := by
  simp [socketJoin, h]

theorem roomsGet_socketJoin_ne (t : RoomTable) (s : SocketId) {r r' : RoomId}
    (h : r' ≠ r) : roomsGet (socketJoin t s r) r' = roomsGet t r' := by
  by_cases hm : s ∈ (roomsGet t r).getD []
  · rw [socketJoin_of_mem hm]
  · rw [socketJoin_of_not_mem hm]
    exact roomsGet_roomsSet_ne t _ h

theorem memberOf_socketJoin_self (t : RoomTable) (s : SocketId) (r : RoomId) :
    memberOf (socketJoin t s r) s r := by
  by_cases h : s ∈ (roomsGet t r).getD []
  · rw [socketJoin_of_mem h]; exact h
  · unfold memberOf
    rw [roomsGet_socketJoin_of_not_mem h]
    simp

/-! ## Lemmas about `disconnectHandler` -/

theorem mem_removeSock {occ : List SocketId} {s x : SocketId} :
    x ∈ removeSock occ s ↔ x ∈ occ ∧ x ≠ s := by
  simp [removeSock]

theorem removeSock_of_not_mem {occ : List SocketId} {s : SocketId}
    (h : s ∉ occ) : removeSock occ s = occ := by
  unfold removeSock
  apply List.filter_eq_self.mpr
  intro a ha
  by_cases he : a = s
  · exact absurd (he ▸ ha) h
  · simp [he]

theorem mem_disconnectHandler {t : RoomTable} {c : SocketId}
    {p : RoomId × List SocketId} :
    p ∈ disconnectHandler t c ↔
      (∃ q ∈ t, p = (q.1, removeSock q.2 c)) ∧ p.2 ≠ [] := by
  unfold disconnectHandler
  rw [List.mem_filter, List.mem_map]
  constructor
  · rintro ⟨⟨q, hq, rfl⟩, hp⟩
    exact ⟨⟨q, hq, rfl⟩, by simpa using hp⟩
  · rintro ⟨⟨q, hq, rfl⟩, hp⟩
    exact ⟨⟨q, hq, rfl⟩, by simpa using hp⟩

theorem disconnectHandler_cons (r₀ : RoomId) (occ₀ : List SocketId)
    (tl : RoomTable) (c : SocketId) :
    disconnectHandler ((r₀, occ₀) :: tl) c =
      if (removeSock occ₀ c).isEmpty = true then disconnectHandler tl c
      else (r₀, removeSock occ₀ c) :: disconnectHandler tl c := by
  unfold disconnectHandler
  simp only [List.map_cons, List.filter_cons]
  cases hempty : (removeSock occ₀ c).isEmpty <;> simp [hempty]

theorem roomsGet_disconnectHandler_none {t : RoomTable} {c : SocketId}
    {r : RoomId} (h : roomsGet t r = none) :
    roomsGet (disconnectHandler t c) r = none := by
  rw [roomsGet_eq_none_iff] at h ⊢
  intro hr
  apply h
  rcases List.mem_map.mp hr with ⟨p, hp, rfl⟩
  rcases (mem_disconnectHandler.mp hp).1 with ⟨q, hq, rfl⟩
  exact List.mem_map.mpr ⟨q, hq, rfl⟩

theorem roomsGet_disconnectHandler (t : RoomTable) (c : SocketId) (r : RoomId)
    (h : (t.map Prod.fst).Nodup) :
    roomsGet (disconnectHandler t c) r =
      match roomsGet t r with
      | none => none
      | some occ =>
        if (removeSock occ c).isEmpty = true then none
        else some (removeSock occ c) := by
  induction t with
  | nil => simp [disconnectHandler, roomsGet]
  | cons hd tl ih =>
    obtain ⟨r₀, occ₀⟩ := hd
    simp only [List.map_cons, List.nodup_cons] at h
    rw [disconnectHandler_cons]
    by_cases hr : r₀ = r
    · subst hr
      rw [show roomsGet ((r₀, occ₀) :: tl) r₀ = some occ₀ from by
        rw [roomsGet, if_pos rfl]]
      by_cases hempty : (removeSock occ₀ c).isEmpty = true
      · rw [if_pos hempty]
        have hnone : roomsGet tl r₀ = none :=
          roomsGet_eq_none_iff.mpr h.1
        rw [roomsGet_disconnectHandler_none hnone]
        show (none : Option (List SocketId)) =
          if (removeSock occ₀ c).isEmpty = true then none
          else some (removeSock occ₀ c)
        rw [if_pos hempty]
      · rw [if_neg hempty]
        show roomsGet ((r₀, removeSock occ₀ c) :: disconnectHandler tl c) r₀ =
          if (removeSock occ₀ c).isEmpty = true then none
          else some (removeSock occ₀ c)
        rw [roomsGet, if_pos rfl, if_neg hempty]
    · rw [show roomsGet ((r₀, occ₀) :: tl) r = roomsGet tl r from by
        rw [roomsGet, if_neg hr]]
      by_cases hempty : (removeSock occ₀ c).isEmpty = true
      · rw [if_pos hempty]
        exact ih h.2
      · rw [if_neg hempty]
        rw [roomsGet, if_neg hr]
        exact ih h.2

/-! ## The reachability invariant -/

/-- The adapter map's well-formedness invariant: room names are unique keys,
and every room is non-empty, duplicate-free, and holds at most 2 sockets. -/
def TableInv (t : RoomTable) : Prop :=
  (t.map Prod.fst).Nodup ∧
    ∀ p ∈ t, p.2 ≠ [] ∧ p.2.Nodup ∧ p.2.length ≤ 2

theorem inv_joinHandler {t : RoomTable} (h : TableInv t) (s : SocketId) (r : RoomId) :
    TableInv (joinHandler t s r).1 := by
  unfold joinHandler
  by_cases h0 : occupancy t r = 0
  · rw [if_pos h0]
    show TableInv (socketJoin t s r)
    have hnone : roomsGet t r = none := by
      cases hg : roomsGet t r with
      | none => rfl
      | some occ =>
        have hmem := mem_of_roomsGet hg
        simp only [occupancy, hg] at h0
        exact absurd (List.length_eq_zero.mp h0) (h.2 _ hmem).1
    have hs : s ∉ (roomsGet t r).getD [] := by rw [hnone]; simp
    rw [socketJoin_of_not_mem hs]
    constructor
    · rw [keys_roomsSet, if_neg (roomsGet_eq_none_iff.mp hnone)]
      simp only [List.nodup_append, List.nodup_cons]
      exact ⟨h.1, by simp, by
        intro a ha hb
        simp only [List.mem_singleton] at hb
        exact roomsGet_eq_none_iff.mp hnone (hb ▸ ha)⟩
    · intro p hp
      rcases mem_roomsSet hp with hp | hp
      · exact h.2 p hp
      · subst hp
        rw [hnone]
        simp
  · rw [if_neg h0]
    by_cases h1 : occupancy t r = 1
    · rw [if_pos h1]
      show TableInv (socketJoin t s r)
      cases hg : roomsGet t r with
      | none => simp [occupancy, hg] at h1
      | some occ =>
        simp only [occupancy, hg] at h1
        by_cases hs : s ∈ (roomsGet t r).getD []
        · rw [socketJoin_of_mem hs]
          exact h
        · rw [socketJoin_of_not_mem hs]
          rw [hg] at hs ⊢
          simp only [Option.getD_some] at hs ⊢
          have hoccmem := h.2 _ (mem_of_roomsGet hg)
          constructor
          · rw [keys_roomsSet, if_pos (keys_mem_of_roomsGet hg)]
            exact h.1
          · intro p hp
            rcases mem_roomsSet hp with hp | hp
            · exact h.2 p hp
            · subst hp
              refine ⟨by simp, ?_, ?_⟩
              · simp only [List.nodup_append, List.nodup_cons]
                exact ⟨hoccmem.2.1, by simp, by
                  intro a ha hb
                  simp only [List.mem_singleton] at hb
                  exact hs (hb ▸ ha)⟩
              · simp [h1]
    · rw [if_neg h1]
      exact h

theorem inv_disconnectHandler {t : RoomTable} (h : TableInv t) (c : SocketId) :
    TableInv (disconnectHandler t c) := by
  constructor
  · have hsub : List.Sublist ((disconnectHandler t c).map Prod.fst)
        ((t.map (fun p => (p.1, removeSock p.2 c))).map Prod.fst) :=
      List.Sublist.map Prod.fst (List.filter_sublist _)
    rw [List.map_map] at hsub
    have hkeys : t.map (Prod.fst ∘ fun p => (p.1, removeSock p.2 c)) =
        t.map Prod.fst := rfl
    rw [hkeys] at hsub
    exact h.1.sublist hsub
  · intro p hp
    rcases mem_disconnectHandler.mp hp with ⟨⟨q, hq, rfl⟩, hne⟩
    obtain ⟨-, hq2, hq3⟩ := h.2 q hq
    exact ⟨hne, hq2.filter _, le_trans (List.length_filter_le _ _) hq3⟩

theorem inv_step {t : RoomTable} (h : TableInv t) (s : SocketId) (e : InEvent) :
    TableInv (step t s e).1 := by
  cases e with
  | join r => exact inv_joinHandler h s r
  | startCall r => exact h
  | offer ev => exact h
  | answer ev => exact h
  | iceCandidate ev => exact h
  | disconnect => exact inv_disconnectHandler h s

theorem reachable_inv {t : RoomTable} (h : Reachable t) : TableInv t := by
  induction h with
  | init => exact ⟨by simp, by simp⟩
  | next t s e _ ih => exact inv_step ih s e

/-! ## Lemmas about `socketTo` and the join branches -/

theorem toRecipients_eq_removeSock (t : RoomTable) (sender : SocketId)
    (r : RoomId) :
    toRecipients t sender r = removeSock ((roomsGet t r).getD []) sender := rfl

theorem mem_toRecipients {t : RoomTable} {sender d : SocketId} {r : RoomId} :
    d ∈ toRecipients t sender r ↔ d ∈ (roomsGet t r).getD [] ∧ d ≠ sender := by
  rw [toRecipients_eq_removeSock]
  exact mem_removeSock

theorem socketTo_dest (t : RoomTable) (sender : SocketId) (r : RoomId)
    (ev : String) (p : Payload) :
    (socketTo t sender r ev p).map Emission.dest = toRecipients t sender r := by
  unfold socketTo
  rw [List.map_map]
  exact List.map_id _

theorem joinHandler_occ0 {t : RoomTable} {r : RoomId}
    (h : occupancy t r = 0) (s : SocketId) :
    joinHandler t s r =
      (socketJoin t s r, [⟨s, "room_created", Payload.str r⟩]) := by
  unfold joinHandler
  rw [if_pos h]

theorem joinHandler_occ1 {t : RoomTable} {r : RoomId}
    (h : occupancy t r = 1) (s : SocketId) :
    joinHandler t s r =
      (socketJoin t s r, [⟨s, "room_joined", Payload.str r⟩]) := by
  unfold joinHandler
  rw [if_neg (by omega), if_pos h]

theorem joinHandler_occ_ge2 {t : RoomTable} {r : RoomId}
    (h : 2 ≤ occupancy t r) (s : SocketId) :
    joinHandler t s r = (t, [⟨s, "full_room", Payload.str r⟩]) := by
  unfold joinHandler
  rw [if_neg (by omega), if_neg (by omega)]

theorem runJoins_full {t : RoomTable} {r : RoomId} (h : occupancy t r = 2)
    (ss : List SocketId) :
    runJoins t r ss =
      (t, ss.map (fun s => ⟨s, "full_room", Payload.str r⟩)) := by
  induction ss with
  | nil => rw [runJoins]; simp
  | cons s ss ih =>
    rw [runJoins, joinHandler_occ_ge2 (le_of_eq h.symm) s]
    simp only [List.map_cons]
    rw [ih]
    simp

theorem memberOf_socketJoin_mono {t : RoomTable} {c : SocketId} {r : RoomId}
    (s : SocketId) (r' : RoomId) (h : memberOf t c r) :
    memberOf (socketJoin t s r') c r := by
  by_cases hm : s ∈ (roomsGet t r').getD []
  · rw [socketJoin_of_mem hm]
    exact h
  · rw [socketJoin_of_not_mem hm]
    by_cases hr : r = r'
    · subst hr
      unfold memberOf
      rw [roomsGet_roomsSet_self]
      exact List.mem_append_left _ h
    · unfold memberOf
      rw [roomsGet_roomsSet_ne _ _ hr]
      exact h

theorem socketTo_spec (t : RoomTable) (s : SocketId) (r : RoomId)
    (n : String) (p : Payload) :
    (∀ d, d ∈ (socketTo t s r n p).map Emission.dest ↔
        memberOf t d r ∧ d ≠ s) ∧
    s ∉ (socketTo t s r n p).map Emission.dest ∧
    (∀ a b, roomsGet t r = some [a, b] → a ≠ b → s = a →
      (socketTo t s r n p).map Emission.dest = [b]) := by
  refine ⟨?_, ?_, ?_⟩
  · intro d
    rw [socketTo_dest]
    exact mem_toRecipients
  · rw [socketTo_dest]
    intro hmem
    exact (mem_toRecipients.mp hmem).2 rfl
  · intro a b hab hne hsa
    subst hsa
    rw [socketTo_dest, toRecipients_eq_removeSock, hab]
    simp [removeSock, Ne.symm hne]

/-! ## Claim theorems -/

/-- C1: a join with occupancy 0 adds the requester and emits `room_created`
to it only; occupancy 1 adds and emits `room_joined`; occupancy 2 leaves the
room unchanged and emits `full_room`; hence for a sequence of joins by
distinct connections to a fresh room, the 1st gets `room_created`, the 2nd
`room_joined`, and every later joiner `full_room`, with occupancy staying
at 2. -/
theorem C1_join_admission (t0 : RoomTable) (r : RoomId) (s1 s2 : SocketId)
    (rest : List SocketId) (hfresh : roomsGet t0 r = none) (hne : s1 ≠ s2) :
    (∀ t s, occupancy t r = 0 →
      memberOf (joinHandler t s r).1 s r ∧
      (joinHandler t s r).2 = [⟨s, "room_created", Payload.str r⟩]) ∧
    (∀ t s, occupancy t r = 1 →
      memberOf (joinHandler t s r).1 s r ∧
      (joinHandler t s r).2 = [⟨s, "room_joined", Payload.str r⟩]) ∧
    (∀ t s, occupancy t r = 2 →
      (joinHandler t s r).1 = t ∧
      (joinHandler t s r).2 = [⟨s, "full_room", Payload.str r⟩]) ∧
    ((runJoins t0 r (s1 :: s2 :: rest)).2 =
      ⟨s1, "room_created", Payload.str r⟩ ::
        ⟨s2, "room_joined", Payload.str r⟩ ::
          rest.map (fun s => ⟨s, "full_room", Payload.str r⟩)) ∧
    occupancy (runJoins t0 r (s1 :: s2 :: rest)).1 r = 2 := by
  have h0 : occupancy t0 r = 0 := by simp [occupancy, hfresh]
  have e1 := joinHandler_occ0 h0 s1
  have hs1 : s1 ∉ (roomsGet t0 r).getD [] := by rw [hfresh]; simp
  have g1 : roomsGet (socketJoin t0 s1 r) r = some [s1] := by
    rw [roomsGet_socketJoin_of_not_mem hs1, hfresh]
    rfl
  have h1 : occupancy (socketJoin t0 s1 r) r = 1 := by simp [occupancy, g1]
  have e2 := joinHandler_occ1 h1 s2
  have hs2 : s2 ∉ (roomsGet (socketJoin t0 s1 r) r).getD [] := by
    rw [g1]
    simp [Ne.symm hne]
  have g2 : roomsGet (socketJoin (socketJoin t0 s1 r) s2 r) r =
      some [s1, s2] := by
    rw [roomsGet_socketJoin_of_not_mem hs2, g1]
    rfl
  have h2 : occupancy (socketJoin (socketJoin t0 s1 r) s2 r) r = 2 := by
    simp [occupancy, g2]
  have key : runJoins t0 r (s1 :: s2 :: rest) =
      (socketJoin (socketJoin t0 s1 r) s2 r,
        ⟨s1, "room_created", Payload.str r⟩ ::
          ⟨s2, "room_joined", Payload.str r⟩ ::
            rest.map (fun s => ⟨s, "full_room", Payload.str r⟩)) := by
    simp only [runJoins, e1, e2, runJoins_full h2]
    simp
  refine ⟨?_, ?_, ?_, ?_, ?_⟩
  · intro t s hocc
    rw [joinHandler_occ0 hocc s]
    exact ⟨memberOf_socketJoin_self t s r, rfl⟩
  · intro t s hocc
    rw [joinHandler_occ1 hocc s]
    exact ⟨memberOf_socketJoin_self t s r, rfl⟩
  · intro t s hocc
    rw [joinHandler_occ_ge2 (le_of_eq hocc.symm) s]
    exact ⟨rfl, rfl⟩
  · rw [key]
  · rw [key]
    exact h2

/-- C2: every relay operation delivers to exactly the occupants of the
addressed room minus the sender; the sender never self-receives; with
occupants `[a, b]` and sender `a` the message reaches `b` exactly once and
never `a`. -/
theorem C2_relay_recipients (t : RoomTable) (s : SocketId) (e : InEvent)
    (r : RoomId) (hrel : isRelay e = true) (hroom : relayRoom e = some r) :
    (∀ d, d ∈ (step t s e).2.map Emission.dest ↔ memberOf t d r ∧ d ≠ s) ∧
    s ∉ (step t s e).2.map Emission.dest ∧
    (∀ a b, roomsGet t r = some [a, b] → a ≠ b → s = a →
      (step t s e).2.map Emission.dest = [b]) := by
  cases e with
  | join r' => simp [isRelay] at hrel
  | disconnect => simp [isRelay] at hrel
  | startCall r' =>
    simp only [relayRoom, Option.some.injEq] at hroom
    subst hroom
    exact socketTo_spec t s r' _ _
  | offer ev =>
    simp only [relayRoom, Option.some.injEq] at hroom
    subst hroom
    exact socketTo_spec t s ev.roomId _ _
  | answer ev =>
    simp only [relayRoom, Option.some.injEq] at hroom
    subst hroom
    exact socketTo_spec t s ev.roomId _ _
  | iceCandidate ev =>
    simp only [relayRoom, Option.some.injEq] at hroom
    subst hroom
    exact socketTo_spec t s ev.roomId _ _

/-- C3: in every reachable adapter state, and after one further operation,
every room's occupant set has size at most 2. -/
theorem C3_room_capacity (t : RoomTable) (ht : Reachable t) (s : SocketId)
    (e : InEvent) (r : RoomId) (occ : List SocketId) :
    (roomsGet t r = some occ → occ.length ≤ 2) ∧
    (roomsGet (step t s e).1 r = some occ → occ.length ≤ 2) := by
  constructor
  · intro hg
    exact ((reachable_inv ht).2 _ (mem_of_roomsGet hg)).2.2
  · intro hg
    exact ((inv_step (reachable_inv ht) s e).2 _ (mem_of_roomsGet hg)).2.2

/-- C7: relayed payloads pass through unmodified: `webrtc_offer` and
`webrtc_answer` recipients get exactly the inbound event's `sdp` field,
`webrtc_ice_candidate` recipients get the original event object, and
`start_call` recipients get no payload. -/
theorem C7_payload_passthrough (t : RoomTable) (s : SocketId) (r : RoomId)
    (evo eva : OfferEvent) (evi : IceEvent) :
    (step t s (.startCall r)).2 =
      (toRecipients t s r).map
        (fun d => ⟨d, "start_call", Payload.nothing⟩) ∧
    (step t s (.offer evo)).2 =
      (toRecipients t s evo.roomId).map
        (fun d => ⟨d, "webrtc_offer", Payload.str evo.sdp⟩) ∧
    (step t s (.answer eva)).2 =
      (toRecipients t s eva.roomId).map
        (fun d => ⟨d, "webrtc_answer", Payload.str eva.sdp⟩) ∧
    (step t s (.iceCandidate evi)).2 =
      (toRecipients t s evi.roomId).map
        (fun d => ⟨d, "webrtc_ice_candidate",
          Payload.ice evi.roomId evi.label evi.candidate⟩) :=
  ⟨rfl, rfl, rfl, rfl⟩

/-- C9: relay operations never change the adapter state; only join and
disconnect can mutate room membership. -/
theorem C9_relay_frame (t : RoomTable) (s : SocketId) (e : InEvent)
    (h : isRelay e = true) : (step t s e).1 = t := by
  cases e with
  | join r => simp [isRelay] at h
  | disconnect => simp [isRelay] at h
  | startCall r => rfl
  | offer ev => rfl
  | answer ev => rfl
  | iceCandidate ev => rfl

/-- C10: when the sole occupant of a room joins that room again, the
occupancy check counts the requester itself, so it receives `room_joined`
and membership is unchanged. -/
theorem C10_rejoin_idempotent (t : RoomTable) (r : RoomId) (c : SocketId)
    (h : roomsGet t r = some [c]) :
    step t c (.join r) = (t, [⟨c, "room_joined", Payload.str r⟩]) := by
  have h1 : occupancy t r = 1 := by simp [occupancy, h]
  show joinHandler t c r = _
  rw [joinHandler_occ1 h1 c]
  rw [socketJoin_of_mem (by rw [h]; simp)]

/-- C4 counterexample: a relay whose sender is not a member of the named
room still delivers to that room's occupants (socket.io's `socket.to`
excludes only the sender; it does not check the sender's membership), so
the relay is not a zero-recipient no-op when the room is occupied. -/
theorem C4_counterexample :
    Reachable [("r", ["a"])] ∧
    ¬ memberOf [("r", ["a"])] "b" "r" ∧
    occupancy [("r", ["a"])] "r" = 1 ∧
    (step [("r", ["a"])] "b" (.startCall "r")).2 =
      [⟨"a", "start_call", Payload.nothing⟩] ∧
    ¬ (∀ t : RoomTable, ∀ s : SocketId, ∀ r : RoomId, Reachable t →
        ¬ memberOf t s r → (step t s (.startCall r)).2 = []) := by
  have r1 := Reachable.next [] "a" (.join "r") Reachable.init
  have e1 : (step [] "a" (.join "r")).1 = [("r", ["a"])] := by decide
  have hreach : Reachable [("r", ["a"])] := e1 ▸ r1
  refine ⟨hreach, by decide, by decide, by decide, ?_⟩
  intro hall
  have h2 := hall [("r", ["a"])] "b" "r" hreach (by decide)
  exact absurd h2 (by decide)

/-- C4 amended: a relay whose sender is not a member of the named room
delivers to all occupants of that room (the sender is excluded but absent
anyway); it delivers to zero connections when the named room is absent from
the adapter map. -/
theorem C4_amended_relay_nonmember (t : RoomTable) (s : SocketId)
    (e : InEvent) (r : RoomId) (hrel : isRelay e = true)
    (hroom : relayRoom e = some r) (hnm : ¬ memberOf t s r) :
    (step t s e).2.map Emission.dest = (roomsGet t r).getD [] ∧
    (roomsGet t r = none → (step t s e).2 = []) := by
  have key : ∀ n p,
      ((socketTo t s r n p).map Emission.dest = (roomsGet t r).getD []) ∧
      (roomsGet t r = none → socketTo t s r n p = []) := by
    intro n p
    constructor
    · rw [socketTo_dest, toRecipients_eq_removeSock]
      exact removeSock_of_not_mem hnm
    · intro hg
      unfold socketTo toRecipients
      rw [hg]
      rfl
  cases e with
  | join r' => simp [isRelay] at hrel
  | disconnect => simp [isRelay] at hrel
  | startCall r' =>
    simp only [relayRoom, Option.some.injEq] at hroom
    subst hroom
    exact key _ _
  | offer ev =>
    simp only [relayRoom, Option.some.injEq] at hroom
    subst hroom
    exact key _ _
  | answer ev =>
    simp only [relayRoom, Option.some.injEq] at hroom
    subst hroom
    exact key _ _
  | iceCandidate ev =>
    simp only [relayRoom, Option.some.injEq] at hroom
    subst hroom
    exact key _ _

/-- C5 counterexample: a connection can be a member of two rooms at once:
`socket.join` never removes the socket from its previous room, so after
joining `r1` and then `r2` the connection occupies both — refuting the
at-most-one-room invariant on a reachable state. -/
theorem C5_counterexample :
    Reachable [("r1", ["c"]), ("r2", ["c"])] ∧
    memberOf [("r1", ["c"]), ("r2", ["c"])] "c" "r1" ∧
    memberOf [("r1", ["c"]), ("r2", ["c"])] "c" "r2" ∧
    ¬ (∀ t : RoomTable, Reachable t → ∀ c : SocketId, ∀ r1 r2 : RoomId,
        memberOf t c r1 → memberOf t c r2 → r1 = r2) := by
  have r1 := Reachable.next [] "c" (.join "r1") Reachable.init
  have e1 : (step [] "c" (.join "r1")).1 = [("r1", ["c"])] := by decide
  have r2 := Reachable.next _ "c" (.join "r2") (e1 ▸ r1)
  have e2 : (step [("r1", ["c"])] "c" (.join "r2")).1 =
      [("r1", ["c"]), ("r2", ["c"])] := by decide
  have hreach : Reachable [("r1", ["c"]), ("r2", ["c"])] := e2 ▸ r2
  refine ⟨hreach, by decide, by decide, ?_⟩
  intro hall
  have h2 := hall _ hreach "c" "r1" "r2" (by decide) (by decide)
  exact absurd h2 (by decide)

/-- C5 amended: joining a room never removes a connection from any room it
already occupies, so a connection may belong to several rooms at once; a
join to a room with at most one occupant also makes the requester a member
of that room, on top of its existing memberships. -/
theorem C5_amended_multi_room (t : RoomTable) (c s : SocketId)
    (r r' : RoomId) (h : memberOf t c r) :
    memberOf ((step t s (.join r')).1) c r ∧
    (occupancy t r' ≤ 1 → memberOf ((step t s (.join r')).1) s r') := by
  constructor
  · show memberOf (joinHandler t s r').1 c r
    by_cases h0 : occupancy t r' = 0
    · rw [joinHandler_occ0 h0 s]
      exact memberOf_socketJoin_mono s r' h
    · by_cases h1 : occupancy t r' = 1
      · rw [joinHandler_occ1 h1 s]
        exact memberOf_socketJoin_mono s r' h
      · rw [joinHandler_occ_ge2 (by omega) s]
        exact h
  · intro hocc
    rcases Nat.le_one_iff_eq_zero_or_eq_one.mp hocc with h0 | h1
    · show memberOf (joinHandler t s r').1 s r'
      rw [joinHandler_occ0 h0 s]
      exact memberOf_socketJoin_self t s r'
    · show memberOf (joinHandler t s r').1 s r'
      rw [joinHandler_occ1 h1 s]
      exact memberOf_socketJoin_self t s r'

/-- C6: on disconnect the departing connection is removed from every room
it occupies and emptied rooms are deleted: no room of the resulting state
is empty, the sole occupant's room disappears (so a fresh join to the same
identifier yields `room_created`), and disconnecting one of two occupants
leaves exactly the survivor. -/
theorem C6_disconnect_cleanup (t : RoomTable) (c : SocketId)
    (ht : Reachable t) :
    (∀ r, ¬ memberOf (disconnectHandler t c) c r) ∧
    (∀ r occ, roomsGet (disconnectHandler t c) r = some occ → occ ≠ []) ∧
    (∀ r s', roomsGet t r = some [c] →
      roomsGet (disconnectHandler t c) r = none ∧
      (step (disconnectHandler t c) s' (.join r)).2 =
        [⟨s', "room_created", Payload.str r⟩]) ∧
    (∀ r b, roomsGet t r = some [c, b] →
      roomsGet (disconnectHandler t c) r = some [b]) ∧
    (∀ r a, roomsGet t r = some [a, c] →
      roomsGet (disconnectHandler t c) r = some [a]) := by
  have hinv := reachable_inv ht
  refine ⟨?_, ?_, ?_, ?_, ?_⟩
  · intro r hmem
    unfold memberOf at hmem
    cases hg : roomsGet (disconnectHandler t c) r with
    | none =>
      rw [hg] at hmem
      simp at hmem
    | some occ =>
      rw [hg] at hmem
      simp only [Option.getD_some] at hmem
      rcases (mem_disconnectHandler.mp (mem_of_roomsGet hg)).1 with ⟨q, hq, heq⟩
      have hocc : occ = removeSock q.2 c := congrArg Prod.snd heq
      rw [hocc] at hmem
      exact (mem_removeSock.mp hmem).2 rfl
  · intro r occ hg
    exact (mem_disconnectHandler.mp (mem_of_roomsGet hg)).2
  · intro r s' hsole
    have hnone : roomsGet (disconnectHandler t c) r = none := by
      rw [roomsGet_disconnectHandler t c r hinv.1, hsole]
      show (if (removeSock [c] c).isEmpty = true then none
        else some (removeSock [c] c)) = (none : Option (List SocketId))
      rw [show removeSock [c] c = [] from by simp [removeSock]]
      rfl
    refine ⟨hnone, ?_⟩
    have h0 : occupancy (disconnectHandler t c) r = 0 := by
      simp [occupancy, hnone]
    show (joinHandler (disconnectHandler t c) s' r).2 = _
    rw [joinHandler_occ0 h0 s']
  · intro r b hsole
    have hmem := hinv.2 _ (mem_of_roomsGet hsole)
    have hcb : ¬ c = b := by
      have h1 := (List.nodup_cons.mp hmem.2.1).1
      simpa using h1
    have hb : b ≠ c := fun hbc => hcb hbc.symm
    rw [roomsGet_disconnectHandler t c r hinv.1, hsole]
    show (if (removeSock [c, b] c).isEmpty = true then none
      else some (removeSock [c, b] c)) = some [b]
    rw [show removeSock [c, b] c = [b] from by simp [removeSock, hb]]
    rfl
  · intro r a hsole
    have hmem := hinv.2 _ (mem_of_roomsGet hsole)
    have ha : a ≠ c := by
      have h1 := (List.nodup_cons.mp hmem.2.1).1
      simpa using h1
    rw [roomsGet_disconnectHandler t c r hinv.1, hsole]
    show (if (removeSock [a, c] c).isEmpty = true then none
      else some (removeSock [a, c] c)) = some [a]
    rw [show removeSock [a, c] c = [a] from by simp [removeSock, ha]]
    rfl

/-- C8: the listening port is the `PORT` environment variable when one is
provided (and, per JS truthiness, non-empty), the number 3000 otherwise;
and it is the only runtime configuration read: the port depends on nothing
but the `PORT` variable. -/
theorem C8_port_config (env env' : String → Option String) (s : String) :
    (env "PORT" = some s → s ≠ "" → listenPort env = PortValue.str s) ∧
    (env "PORT" = none → listenPort env = PortValue.num 3000) ∧
    (env "PORT" = env' "PORT" → listenPort env = listenPort env') := by
  refine ⟨?_, ?_, ?_⟩
  · intro h hs
    rw [listenPort, h]
    simp [portOf, hs]
  · intro h
    rw [listenPort, h]
    rfl
  · intro h
    rw [listenPort, h]
    rfl

/-! ## Witnesses: the claim theorems applied at concrete inputs -/

/-- C1 witness: three distinct sockets join the fresh room `"42"`. -/
theorem C1_join_admission_witness :
    (runJoins [] "42" ["a", "b", "c"]).2 =
      [⟨"a", "room_created", Payload.str "42"⟩,
       ⟨"b", "room_joined", Payload.str "42"⟩,
       ⟨"c", "full_room", Payload.str "42"⟩] ∧
    occupancy (runJoins [] "42" ["a", "b", "c"]).1 "42" = 2 := by
  obtain ⟨-, -, -, h4, h5⟩ :=
    C1_join_admission [] "42" "a" "b" ["c"] rfl (by decide)
  exact ⟨h4.trans (by decide), h5⟩

/-- C2 witness: in room `"42"` with occupants `a` and `b`, a `start_call`
sent by `a` reaches exactly `b`. -/
theorem C2_relay_recipients_witness :
    (step [("42", ["a", "b"])] "a" (.startCall "42")).2.map Emission.dest =
      ["b"] :=
  (C2_relay_recipients [("42", ["a", "b"])] "a" (.startCall "42") "42"
    rfl rfl).2.2 "a" "b" rfl (by decide) rfl

/-- C3 witness: the reachable full room `"42"` holds `["a", "b"]`, of size
at most 2. -/
theorem C3_room_capacity_witness :
    (["a", "b"] : List SocketId).length ≤ 2 := by
  have r1 := Reachable.next [] "a" (.join "42") Reachable.init
  have e1 : (step [] "a" (.join "42")).1 = [("42", ["a"])] := by decide
  have r2 := Reachable.next _ "b" (.join "42") (e1 ▸ r1)
  have e2 : (step [("42", ["a"])] "b" (.join "42")).1 =
      [("42", ["a", "b"])] := by decide
  exact (C3_room_capacity [("42", ["a", "b"])] (e2 ▸ r2) "c" (.join "42")
    "42" ["a", "b"]).1 rfl

/-- C4 amended witness: non-member `b` relaying into room `"42"` delivers
to the whole room, here `["a"]`. -/
theorem C4_amended_relay_nonmember_witness :
    (step [("42", ["a"])] "b" (.startCall "42")).2.map Emission.dest =
      ["a"] := by
  have h := C4_amended_relay_nonmember [("42", ["a"])] "b" (.startCall "42")
    "42" rfl rfl (by decide)
  exact h.1.trans (by decide)

/-- C5 amended witness: `c`, sole occupant of `r1`, joins `r2` and is then
a member of both rooms. -/
theorem C5_amended_multi_room_witness :
    memberOf ((step [("r1", ["c"])] "c" (.join "r2")).1) "c" "r1" ∧
    memberOf ((step [("r1", ["c"])] "c" (.join "r2")).1) "c" "r2" := by
  have h := C5_amended_multi_room [("r1", ["c"])] "c" "c" "r1" "r2"
    (by decide)
  exact ⟨h.1, h.2 (by decide)⟩

/-- C6 witness: disconnecting `a` from the reachable two-occupant room
`"42"` leaves exactly the survivor `b`. -/
theorem C6_disconnect_cleanup_witness :
    roomsGet (disconnectHandler [("42", ["a", "b"])] "a") "42" =
      some ["b"] := by
  have r1 := Reachable.next [] "a" (.join "42") Reachable.init
  have e1 : (step [] "a" (.join "42")).1 = [("42", ["a"])] := by decide
  have r2 := Reachable.next _ "b" (.join "42") (e1 ▸ r1)
  have e2 : (step [("42", ["a"])] "b" (.join "42")).1 =
      [("42", ["a", "b"])] := by decide
  exact (C6_disconnect_cleanup [("42", ["a", "b"])] "a"
    (e2 ▸ r2)).2.2.2.1 "42" "b" rfl

/-- C8 witness: `PORT=8080` yields port `"8080"`; an unset `PORT` yields
the default 3000. -/
theorem C8_port_config_witness :
    listenPort (fun k => if k = "PORT" then some "8080" else none) =
      PortValue.str "8080" ∧
    listenPort (fun _ => none) = PortValue.num 3000 := by
  constructor
  · exact (C8_port_config (fun k => if k = "PORT" then some "8080" else none)
      (fun k => if k = "PORT" then some "8080" else none) "8080").1
      (by decide) (by decide)
  · exact (C8_port_config (fun _ => none) (fun _ => none) "x").2.1 rfl

/-- C9 witness: a `start_call` relay leaves the adapter state unchanged. -/
theorem C9_relay_frame_witness :
    (step [("42", ["a"])] "b" (.startCall "42")).1 = [("42", ["a"])] :=
  C9_relay_frame [("42", ["a"])] "b" (.startCall "42") rfl

/-- C10 witness: sole occupant `a` of room `"42"` rejoins and gets
`room_joined` with the state unchanged. -/
theorem C10_rejoin_idempotent_witness :
    step [("42", ["a"])] "a" (.join "42") =
      ([("42", ["a"])], [⟨"a", "room_joined", Payload.str "42"⟩]) :=
  C10_rejoin_idempotent [("42", ["a"])] "42" "a" (by decide)
